import Mathlib

/-!
Vehicle record service (`main.go`): embedding and properties

The service keeps two package-level variables, `cars []Car` and `nextID int`,
and serves them through six HTTP handlers, writing the whole slice to
`cars.json` after each mutation.

Modelling choices.

* The two globals form the `Store`; every handler is a function from the
  store (and the outcome of the library calls it makes) to a `Result`:
  the HTTP response, the store afterwards, and the slice handed to
  `saveCars` when the handler calls it.
* Results of library calls are inputs of the handler that makes them:
  `strconv.Atoi` on the path segment is an `Option Int` (`none` when it
  returns an error), `json.Decoder.Decode` on the request body is an
  `Except String Car`, and the error returned by `saveCars` is an
  `Option String`.
* Go `int` is `Int`.  The only arithmetic on it is `+ 1` on the allocator,
  which starts at 1 or just above a stored ID; the model does not wrap, so
  it agrees with the code as long as the value incremented is below
  `maxInt`.  Statements about a loaded file carry that bound on the last ID.
* `Mileage float64` is a `Rat`: a decoded JSON number is a finite float,
  hence a rational, and the code only compares it with `0`.
* The mutex is not modelled; each handler runs as one atomic step.
-/

namespace Cars

/-! ## Data model -/

/-- The `Car` struct. -/
structure Car where
  ID : Int
  Brand : String
  Model : String
  Mileage : Rat
  OwnersCount : Int
deriving DecidableEq, Repr

/-- The package-level variables `cars` and `nextID`. -/
structure Store where
  cars : List Car
  nextID : Int
deriving DecidableEq, Repr

/-- State at process start: `var cars []Car`, `nextID = 1`. -/
def initStore : Store := { cars := [], nextID := 1 }

/-- What a handler writes to the `http.ResponseWriter` after the status line. -/
inductive Body where
  | empty
  | text (msg : String)
  | car (c : Car)
  | cars (cs : List Car)
deriving DecidableEq, Repr

/-- Status code and body of a response. -/
structure Response where
  status : Nat
  body : Body
deriving DecidableEq, Repr

/-- Outcome of one handler call: the response, the store afterwards, and the
collection passed to `saveCars` (`none` when `saveCars` is not called). -/
structure Result where
  resp : Response
  store : Store
  written : Option (List Car)
deriving DecidableEq, Repr

/-- The fields a JSON object body supplies; `none` is an omitted field. -/
structure CarJSON where
  ID : Option Int
  Brand : Option String
  Model : Option String
  Mileage : Option Rat
  OwnersCount : Option Int
deriving DecidableEq, Repr

/-- Decoding a JSON object into `var car Car`: supplied fields are stored,
omitted fields keep the zero value of their type. -/
def decodeCar (j : CarJSON) : Car :=
  { ID := j.ID.getD 0
    Brand := j.Brand.getD ""
    Model := j.Model.getD ""
    Mileage := j.Mileage.getD 0
    OwnersCount := j.OwnersCount.getD 0 }

/-- What `os.Open` and `Decode(&cars)` find at start-up. -/
inductive BackingFile where
  | absent
  | unreadable (err : String)
  | content (decoded : Except String (List Car))

/-! ## Persistence -/

/-- The largest value of a Go `int` (64 bits): `math.MaxInt64`. -/
def maxInt : Int := 9223372036854775807

/-- Function `loadCars`, on the start-up store.  The sum `last.ID + 1` is the
value the code computes whenever `last.ID < maxInt`. -/
def loadCars (f : BackingFile) (s : Store) : Except String Store :=
  match f with
  | .absent => .ok s
  | .unreadable err => .error err
  | .content (.error err) => .error err
  | .content (.ok cs) =>
    match cs.getLast? with
    | some last => .ok { cars := cs, nextID := last.ID + 1 }
    | none => .ok { cars := cs, nextID := s.nextID }

/-- Function `saveCars`: returns the error of `os.Create` / `Encode`
(`saveErr`), paired with the collection it was given to write. -/
def saveCars (saveErr : Option String) (s : Store) : Option String × List Car :=
  (saveErr, s.cars)

/-! ## Handlers -/

/-- The loop `for _, car := range cars { if car.ID == id { ... return } }`:
the first record carrying `id`. -/
def findByID (id : Int) : List Car → Option Car
  | [] => none
  | car :: rest => if car.ID = id then some car else findByID id rest

/-- The loop `for i, car := range cars { if car.ID == id { ... return } }`:
the first index whose record carries `id`. -/
def indexOfID (id : Int) : List Car → Option Nat
  | [] => none
  | car :: rest => if car.ID = id then some 0 else (indexOfID id rest).map (· + 1)

/-- Handler `getCars`. -/
def getCars (s : Store) : Result :=
  ⟨⟨200, .cars s.cars⟩, s, none⟩

/-- Handler `createCar`. -/
def createCar (body : Except String Car) (saveErr : Option String) (s : Store) : Result :=
  match body with
  | .error err => ⟨⟨400, .text err⟩, s, none⟩
  | .ok decoded =>
    let car : Car := { decoded with ID := s.nextID }
    let s1 : Store := { cars := s.cars ++ [car], nextID := s.nextID + 1 }
    match saveCars saveErr s1 with
    | (some err, w) => ⟨⟨500, .text err⟩, s1, some w⟩
    | (none, w) => ⟨⟨201, .car car⟩, s1, some w⟩

/-- Handler `getCarByID`. -/
def getCarByID (atoi : Option Int) (s : Store) : Result :=
  match atoi with
  | none => ⟨⟨400, .text "Неверный ID"⟩, s, none⟩
  | some id =>
    if id ≤ 0 then ⟨⟨400, .text "Неверный ID"⟩, s, none⟩
    else
      match findByID id s.cars with
      | some car => ⟨⟨200, .car car⟩, s, none⟩
      | none => ⟨⟨404, .text "Авто не найден"⟩, s, none⟩

/-- The test `Brand != "" && Model != "" && Mileage > 0 && OwnersCount >= 0`
of `updateCar`; when it holds `isPartialUpdate` is set to false. -/
def isFullUpdate (c : Car) : Bool :=
  c.Brand != "" && c.Model != "" && decide (0 < c.Mileage) && decide (0 ≤ c.OwnersCount)

/-- Handler `updateCar`. -/
def updateCar (atoi : Option Int) (body : Except String Car) (saveErr : Option String)
    (s : Store) : Result :=
  match atoi with
  | none => ⟨⟨400, .text "Неверный ID"⟩, s, none⟩
  | some id =>
    if id ≤ 0 then ⟨⟨400, .text "Неверный ID"⟩, s, none⟩
    else
      match body with
      | .error err => ⟨⟨400, .text err⟩, s, none⟩
      | .ok decoded =>
        match indexOfID id s.cars with
        | some i =>
          let updatedCar : Car := { decoded with ID := id }
          let s1 : Store := { s with cars := s.cars.set i updatedCar }
          match saveCars saveErr s1 with
          | (some err, w) => ⟨⟨500, .text err⟩, s1, some w⟩
          | (none, w) =>
            if isFullUpdate updatedCar then ⟨⟨200, .car updatedCar⟩, s1, some w⟩
            else ⟨⟨204, .empty⟩, s1, some w⟩
        | none => ⟨⟨404, .text "Авто не найден"⟩, s, none⟩

/-- Handler `deleteCar`. -/
def deleteCar (atoi : Option Int) (saveErr : Option String) (s : Store) : Result :=
  match atoi with
  | none => ⟨⟨400, .text "Неверный ID"⟩, s, none⟩
  | some id =>
    if id ≤ 0 then ⟨⟨400, .text "Неверный ID"⟩, s, none⟩
    else
      match indexOfID id s.cars with
      | some i =>
        let s1 : Store := { s with cars := s.cars.take i ++ s.cars.drop (i + 1) }
        match saveCars saveErr s1 with
        | (some err, w) => ⟨⟨500, .text err⟩, s1, some w⟩
        | (none, w) => ⟨⟨204, .empty⟩, s1, some w⟩
      | none => ⟨⟨404, .text "Авто не найден"⟩, s, none⟩

/-- Handler `deleteAllCars`; `method` is `r.Method`. -/
def deleteAllCars (method : String) (saveErr : Option String) (s : Store) : Result :=
  if method ≠ "DELETE" then ⟨⟨405, .text "Недопустимый метод"⟩, s, none⟩
  else
    let s1 : Store := { cars := [], nextID := 1 }
    match saveCars saveErr s1 with
    | (some err, w) => ⟨⟨500, .text err⟩, s1, some w⟩
    | (none, w) => ⟨⟨204, .empty⟩, s1, some w⟩

/-! ## Request sequences -/

/-- One request reaching a handler, with the outcomes of its library calls. -/
inductive Request where
  | list
  | create (body : Except String Car) (saveErr : Option String)
  | get (atoi : Option Int)
  | update (atoi : Option Int) (body : Except String Car) (saveErr : Option String)
  | delete (atoi : Option Int) (saveErr : Option String)
  | clear (method : String) (saveErr : Option String)

/-- Dispatch of a request to its handler. -/
def handle (s : Store) : Request → Result
  | .list => getCars s
  | .create body saveErr => createCar body saveErr s
  | .get atoi => getCarByID atoi s
  | .update atoi body saveErr => updateCar atoi body saveErr s
  | .delete atoi saveErr => deleteCar atoi saveErr s
  | .clear method saveErr => deleteAllCars method saveErr s

/-- Store after serving the requests in order. -/
def run (s : Store) : List Request → Store
  | [] => s
  | r :: rest => run (handle s r).store rest

/-- A store the service can be in after some requests, starting empty. -/
def Reachable (s : Store) : Prop := ∃ reqs : List Request, run initStore reqs = s

/-- Requests on the delete-all path. -/
def Request.isClear : Request → Bool
  | .clear _ _ => true
  | _ => false

/-- The ID given out by a request: for a create whose body decodes, the ID of
the record `createCar` appended; no ID for any other request. -/
def assignedID (s : Store) (r : Request) : Option Int :=
  match r with
  | .create (.ok _) _ => (handle s r).store.cars.getLast?.map Car.ID
  | _ => none

/-- The IDs given out while serving the requests, in order. -/
def assignedIDs (s : Store) : List Request → List Int
  | [] => []
  | r :: rest =>
    match assignedID s r with
    | some id => id :: assignedIDs (handle s r).store rest
    | none => assignedIDs (handle s r).store rest

/-- Record IDs in collection order. -/
def ids (s : Store) : List Int := s.cars.map Car.ID

/-- The invariant of stores reached from the empty one: IDs increase along
the collection and lie between 1 and the allocator. -/
def Inv (s : Store) : Prop :=
  (ids s).Pairwise (· < ·) ∧ (∀ x ∈ ids s, 1 ≤ x ∧ x < s.nextID) ∧ 1 ≤ s.nextID

/-- The error the request's call of `saveCars` returns, if the call is made. -/
def Request.saveErr : Request → Option String
  | .create _ e => e
  | .update _ _ e => e
  | .delete _ e => e
  | .clear _ e => e
  | _ => none

/-- Requests served by `createCar` or `deleteCar`. -/
def Request.isCreateOrDelete : Request → Bool
  | .create _ _ => true
  | .delete _ _ => true
  | _ => false

/-- The collection written by the most recent call of `saveCars` that returned
no error while serving the requests; `saved` is the one before them (`none`:
no save has succeeded yet, so the service has not written the file). -/
def lastSaved (saved : Option (List Car)) (s : Store) : List Request → Option (List Car)
  | [] => saved
  | r :: rest =>
    match (handle s r).written, r.saveErr with
    | some w, none => lastSaved (some w) (handle s r).store rest
    | _, _ => lastSaved saved (handle s r).store rest

/-- A fresh process starting on what the previous one last saved: `loadCars`
on the start-up store, the file being absent when nothing was saved and
otherwise decoding to the saved collection. -/
def restart (saved : Option (List Car)) : Except String Store :=
  match saved with
  | none => loadCars .absent initStore
  | some cs => loadCars (.content (.ok cs)) initStore

/-- The handler `main` registers on the pattern "/cars/": the switch on
`r.Method` over `MethodGet`, `MethodPatch`, `MethodPut`, `MethodDelete`. -/
def itemHandler (method : String) (atoi : Option Int) (body : Except String Car)
    (saveErr : Option String) (s : Store) : Result :=
  if method = "GET" then getCarByID atoi s
  else if method = "PATCH" then updateCar atoi body saveErr s
  else if method = "PUT" then updateCar atoi body saveErr s
  else if method = "DELETE" then deleteCar atoi saveErr s
  else ⟨⟨405, .text "Недопустимый метод"⟩, s, none⟩

/-- The same request with another outcome of its call of `saveCars`. -/
def Request.withSaveErr (e : Option String) : Request → Request
  | .list => .list
  | .create body _ => .create body e
  | .get atoi => .get atoi
  | .update atoi body _ => .update atoi body e
  | .delete atoi _ => .delete atoi e
  | .clear method _ => .clear method e

/-! ## The persisted file -/

/-- Modelled from the spec: the JSON values of the persisted file, "a single
JSON array of the same record shape" whose objects have an integer identifier,
string brand and model, a number mileage and an integer owner count.  The
codec `encoding/json` is not part of the repository; numbers are carried as
exact values, so the text form of a number is not modelled. -/
inductive JSON where
  | null
  | num (q : Rat)
  | str (text : String)
  | arr (items : List JSON)
  | obj (fields : List (String × JSON))

/-- Modelled from the spec: the value of a key of a JSON object as the decoder
sees it, the last occurrence of the key. -/
def JSON.field (key : String) (fields : List (String × JSON)) : Option JSON :=
  fields.reverse.lookup key

/-- Modelled from the spec: what `Encode` writes for one record, an object
whose keys are the `json` tags of the `Car` struct, in field order. -/
def encodeCar (c : Car) : JSON :=
  .obj [("Идентификатор", .num c.ID), ("Марка", .str c.Brand), ("Модель", .str c.Model),
        ("Пробег", .num c.Mileage), ("Владельцы", .num c.OwnersCount)]

/-- Modelled from the spec: what `Encode(cars)` writes, the array of the
records in collection order. -/
def encodeCars (cs : List Car) : JSON :=
  .arr (cs.map encodeCar)

/-- Modelled from the spec: decoding a key into an `int` field; an absent or
null key leaves 0, a number that is not an integer or a value of another kind
is a decode error. -/
def decodeInt (key : String) (fields : List (String × JSON)) : Except String Int :=
  match JSON.field key fields with
  | none => .ok 0
  | some .null => .ok 0
  | some (.num q) => if q.den = 1 then .ok q.num else .error ("not an integer: " ++ key)
  | some _ => .error ("not a number: " ++ key)

/-- Modelled from the spec: decoding a key into a `float64` field. -/
def decodeFloat (key : String) (fields : List (String × JSON)) : Except String Rat :=
  match JSON.field key fields with
  | none => .ok 0
  | some .null => .ok 0
  | some (.num q) => .ok q
  | some _ => .error ("not a number: " ++ key)

/-- Modelled from the spec: decoding a key into a `string` field. -/
def decodeString (key : String) (fields : List (String × JSON)) : Except String String :=
  match JSON.field key fields with
  | none => .ok ""
  | some .null => .ok ""
  | some (.str text) => .ok text
  | some _ => .error ("not a string: " ++ key)

/-- Modelled from the spec: decoding one array element into a `Car`. -/
def decodeCarValue : JSON → Except String Car
  | .obj fields => do
    let id ← decodeInt "Идентификатор" fields
    let brand ← decodeString "Марка" fields
    let model ← decodeString "Модель" fields
    let mileage ← decodeFloat "Пробег" fields
    let owners ← decodeInt "Владельцы" fields
    pure { ID := id, Brand := brand, Model := model, Mileage := mileage, OwnersCount := owners }
  | .null => .ok { ID := 0, Brand := "", Model := "", Mileage := 0, OwnersCount := 0 }
  | _ => .error "not an object"

/-- Modelled from the spec: decoding the elements of the array in order. -/
def decodeItems : List JSON → Except String (List Car)
  | [] => .ok []
  | item :: rest => do
    let c ← decodeCarValue item
    let cs ← decodeItems rest
    pure (c :: cs)

/-- Modelled from the spec: what `Decode(&cars)` yields on the file's value;
`null` leaves the slice empty. -/
def decodeCars : JSON → Except String (List Car)
  | .arr items => decodeItems items
  | .null => .ok []
  | _ => .error "not an array"

/-- The backing file a fresh process finds after `saveCars` returned no error
on the store: the encoded collection, read back by the decoder. -/
def savedFile (s : Store) : BackingFile :=
  .content (decodeCars (encodeCars (saveCars none s).2))

/-! ## Sample data -/

/-- First payload of the scenario. -/
def toyota : Car := ⟨0, "Toyota", "Corolla", 15000, 1⟩

/-- Second payload of the scenario. -/
def honda : Car := ⟨0, "Honda", "Civic", 20000, 2⟩

/-- A record that carries ID 0, as a file without IDs decodes. -/
def unnumbered : Car := ⟨0, "Lada", "Niva", 90000, 3⟩

/-- A store loaded from a file whose single record carries ID 0. -/
def zeroStore : Store := { cars := [unnumbered], nextID := 1 }

/-- A store in which two records carry ID 1. -/
def dupStore : Store :=
  { cars := [⟨1, "Lada", "Niva", 90000, 3⟩, ⟨1, "Lada", "Vesta", 10, 1⟩], nextID := 2 }

/-- A body that supplies every field but the owner count. -/
def noOwners : CarJSON := ⟨none, some "Toyota", some "Corolla", some 15000, none⟩

/-- A file whose records are not in increasing ID order. -/
def unsortedFile : List Car := [⟨5, "Honda", "Civic", 20000, 2⟩, ⟨2, "Toyota", "Corolla", 15000, 1⟩]

/-- A file whose records are in increasing ID order. -/
def sortedFile : List Car := [⟨1, "Honda", "Civic", 20000, 2⟩, ⟨4, "Lada", "Niva", 90000, 3⟩]

/-- A create, a delete of its record, and a second create whose save fails. -/
def createDeleteCreate : List Request :=
  [.create (.ok toyota) none, .delete (some 1) none, .create (.ok honda) (some "disk full")]

/-- Two creates, then a delete of the second record, all saves succeeding. -/
def createCreateDelete : List Request :=
  [.create (.ok toyota) none, .create (.ok honda) none, .delete (some 2) none]

/-- First step of the scenario: the create of the Toyota. -/
def scenario1 : Result := createCar (.ok toyota) none initStore

/-- Second step: the create of the Honda. -/
def scenario2 : Result := createCar (.ok honda) none scenario1.store

/-- Third step: the delete of record 1. -/
def scenario3 : Result := deleteCar (some 1) none scenario2.store

/-- Fourth step: the list. -/
def scenario4 : Result := getCars scenario3.store

/-- Fifth step: the clear. -/
def scenario5 : Result := deleteAllCars "DELETE" none scenario4.store

/-- Sixth step: the create after the clear. -/
def scenario6 : Result := createCar (.ok toyota) none scenario5.store

/-! ## Facts about the two search loops -/

theorem indexOfID_none {id : Int} {cs : List Car} :
    indexOfID id cs = none ↔ ∀ c ∈ cs, c.ID ≠ id := by
  induction cs with
  | nil => simp [indexOfID]
  | cons c rest ih =>
    by_cases h : c.ID = id
    · simp [indexOfID, h]
    · simp [indexOfID, h, ih]

theorem indexOfID_split {id : Int} {cs : List Car} {i : Nat} (h : indexOfID id cs = some i) :
    ∃ pre c post, cs = pre ++ c :: post ∧ pre.length = i ∧ c.ID = id ∧
      ∀ x ∈ pre, x.ID ≠ id := by
  induction cs generalizing i with
  | nil => simp [indexOfID] at h
  | cons c rest ih =>
    by_cases hc : c.ID = id
    · simp only [indexOfID, hc, if_true, Option.some.injEq] at h
      exact ⟨[], c, rest, by simp, by simpa using h, hc, by simp⟩
    · simp only [indexOfID, hc, if_false, Option.map_eq_some'] at h
      obtain ⟨j, hj, rfl⟩ := h
      obtain ⟨pre, d, post, hcs, hlen, hd, hpre⟩ := ih hj
      refine ⟨c :: pre, d, post, by simp [hcs], by simp [hlen], hd, ?_⟩
      intro x hx
      rcases List.mem_cons.mp hx with rfl | hx
      · exact hc
      · exact hpre x hx

theorem indexOfID_isSome_of_mem {id : Int} {cs : List Car} {c : Car} (hc : c ∈ cs)
    (hid : c.ID = id) : ∃ i, indexOfID id cs = some i := by
  cases h : indexOfID id cs with
  | none => exact absurd hid (indexOfID_none.mp h c hc)
  | some i => exact ⟨i, rfl⟩

theorem findByID_none {id : Int} {cs : List Car} :
    findByID id cs = none ↔ ∀ c ∈ cs, c.ID ≠ id := by
  induction cs with
  | nil => simp [findByID]
  | cons c rest ih =>
    by_cases h : c.ID = id
    · simp [findByID, h]
    · simp [findByID, h, ih]

theorem findByID_append_of_not_mem {id : Int} {pre post : List Car}
    (hpre : ∀ x ∈ pre, x.ID ≠ id) : findByID id (pre ++ post) = findByID id post := by
  induction pre with
  | nil => rfl
  | cons c rest ih =>
    have hc : c.ID ≠ id := hpre c (by simp)
    simp only [List.cons_append, findByID, hc, if_false]
    exact ih (fun x hx => hpre x (by simp [hx]))

theorem take_drop_split {pre post : List Car} {c : Car} :
    (pre ++ c :: post).take pre.length ++ (pre ++ c :: post).drop (pre.length + 1)
      = pre ++ post := by
  simp

theorem set_split {pre post : List Car} {c d : Car} :
    (pre ++ c :: post).set pre.length d = pre ++ d :: post := by
  simp

/-! ## The store after each handler -/

theorem createCar_store (x : Car) (saveErr : Option String) (s : Store) :
    (createCar (.ok x) saveErr s).store
      = { cars := s.cars ++ [{ x with ID := s.nextID }], nextID := s.nextID + 1 } := by
  cases saveErr <;> rfl

theorem createCar_store_error (err : String) (saveErr : Option String) (s : Store) :
    (createCar (.error err) saveErr s).store = s := rfl

theorem getCarByID_store (atoi : Option Int) (s : Store) :
    (getCarByID atoi s).store = s := by
  unfold getCarByID
  split
  · rfl
  · split
    · rfl
    · split <;> rfl

theorem deleteCar_store_found {id : Int} {i : Nat} (saveErr : Option String) {s : Store}
    (hid : 0 < id) (hi : indexOfID id s.cars = some i) :
    (deleteCar (some id) saveErr s).store
      = { s with cars := s.cars.take i ++ s.cars.drop (i + 1) } := by
  have hpos : ¬ id ≤ 0 := by omega
  cases saveErr <;> simp [deleteCar, hpos, hi, saveCars]

theorem deleteCar_store_other {atoi : Option Int} (saveErr : Option String) {s : Store}
    (h : ∀ id, atoi = some id → 0 < id → indexOfID id s.cars = none) :
    (deleteCar atoi saveErr s).store = s := by
  cases atoi with
  | none => rfl
  | some id =>
    by_cases hpos : id ≤ 0
    · simp [deleteCar, hpos]
    · have hi := h id rfl (by omega)
      simp [deleteCar, hpos, hi]

theorem updateCar_store_found {id : Int} {i : Nat} (x : Car) (saveErr : Option String)
    {s : Store} (hid : 0 < id) (hi : indexOfID id s.cars = some i) :
    (updateCar (some id) (.ok x) saveErr s).store
      = { s with cars := s.cars.set i { x with ID := id } } := by
  have hpos : ¬ id ≤ 0 := by omega
  cases saveErr with
  | some err => simp [updateCar, hpos, hi, saveCars]
  | none =>
    simp only [updateCar, hpos, hi, saveCars, if_false]
    split <;> rfl

theorem updateCar_store_cases (atoi : Option Int) (body : Except String Car)
    (saveErr : Option String) (s : Store) :
    (updateCar atoi body saveErr s).store = s ∨
      ∃ id i x, atoi = some id ∧ body = .ok x ∧ 0 < id ∧ indexOfID id s.cars = some i ∧
        (updateCar atoi body saveErr s).store
          = { s with cars := s.cars.set i { x with ID := id } } := by
  cases atoi with
  | none => left; rfl
  | some id =>
    by_cases hpos : id ≤ 0
    · left; simp [updateCar, hpos]
    · cases body with
      | error err => left; simp [updateCar, hpos]
      | ok x =>
        cases hi : indexOfID id s.cars with
        | none => left; simp [updateCar, hpos, hi]
        | some i =>
          right
          exact ⟨id, i, x, rfl, rfl, by omega, hi, updateCar_store_found x saveErr (by omega) hi⟩

theorem deleteCar_store_cases (atoi : Option Int) (saveErr : Option String) (s : Store) :
    (deleteCar atoi saveErr s).store = s ∨
      ∃ id i, atoi = some id ∧ 0 < id ∧ indexOfID id s.cars = some i ∧
        (deleteCar atoi saveErr s).store
          = { s with cars := s.cars.take i ++ s.cars.drop (i + 1) } := by
  cases atoi with
  | none => left; rfl
  | some id =>
    by_cases hpos : id ≤ 0
    · left; simp [deleteCar, hpos]
    · cases hi : indexOfID id s.cars with
      | none => left; simp [deleteCar, hpos, hi]
      | some i =>
        right
        exact ⟨id, i, rfl, by omega, hi, deleteCar_store_found saveErr (by omega) hi⟩

theorem deleteAllCars_store (method : String) (saveErr : Option String) (s : Store) :
    (deleteAllCars method saveErr s).store = s ∨
      (deleteAllCars method saveErr s).store = { cars := [], nextID := 1 } := by
  by_cases hm : method = "DELETE"
  · right
    cases saveErr <;> simp [deleteAllCars, hm, saveCars]
  · left
    simp [deleteAllCars, hm]

/-! ## The allocator along a run -/

theorem handle_nextID (s : Store) (r : Request) (h : r.isClear = false) :
    (assignedID s r = none ∧ (handle s r).store.nextID = s.nextID) ∨
      (assignedID s r = some s.nextID ∧ (handle s r).store.nextID = s.nextID + 1) := by
  cases r with
  | list => left; exact ⟨rfl, rfl⟩
  | create body saveErr =>
    cases body with
    | error err => left; exact ⟨rfl, rfl⟩
    | ok x =>
      right
      simp [assignedID, handle, createCar_store]
  | get atoi =>
    left
    exact ⟨rfl, by simp [handle, getCarByID_store]⟩
  | update atoi body saveErr =>
    left
    refine ⟨rfl, ?_⟩
    rcases updateCar_store_cases atoi body saveErr s with h1 | ⟨_, _, _, _, _, _, _, h1⟩ <;>
      simp [handle, h1]
  | delete atoi saveErr =>
    left
    refine ⟨rfl, ?_⟩
    rcases deleteCar_store_cases atoi saveErr s with h1 | ⟨_, _, _, _, _, h1⟩ <;>
      simp [handle, h1]
  | clear method saveErr => simp [Request.isClear] at h

theorem assignedIDs_bounds (reqs : List Request) :
    ∀ s : Store, (∀ r ∈ reqs, r.isClear = false) →
      (assignedIDs s reqs).Pairwise (· < ·) ∧ ∀ x ∈ assignedIDs s reqs, s.nextID ≤ x := by
  induction reqs with
  | nil => intro s _; simp [assignedIDs]
  | cons r rest ih =>
    intro s h
    have hr : r.isClear = false := h r (by simp)
    obtain ⟨hp, hb⟩ := ih (handle s r).store (fun q hq => h q (by simp [hq]))
    rcases handle_nextID s r hr with ⟨ha, hn⟩ | ⟨ha, hn⟩
    · simp only [assignedIDs, ha]
      exact ⟨hp, fun x hx => by have := hb x hx; omega⟩
    · simp only [assignedIDs, ha, List.pairwise_cons, List.mem_cons]
      refine ⟨⟨fun x hx => ?_, hp⟩, fun x hx => ?_⟩
      · have := hb x hx; omega
      · rcases hx with rfl | hx
        · exact le_refl _
        · have := hb x hx; omega

/-! ## The invariant of reachable stores -/

theorem inv_initStore : Inv initStore := by
  simp [Inv, initStore, ids]

theorem ids_update {id : Int} {i : Nat} (x : Car) {cs : List Car}
    (hi : indexOfID id cs = some i) :
    (cs.set i { x with ID := id }).map Car.ID = cs.map Car.ID := by
  obtain ⟨pre, c, post, rfl, rfl, hc, _⟩ := indexOfID_split hi
  rw [set_split]
  simp [hc]

theorem ids_delete {id : Int} {i : Nat} {cs : List Car} (hi : indexOfID id cs = some i) :
    ((cs.take i ++ cs.drop (i + 1)).map Car.ID).Sublist (cs.map Car.ID) := by
  obtain ⟨pre, c, post, rfl, rfl, _, _⟩ := indexOfID_split hi
  rw [take_drop_split]
  simp

theorem inv_handle {s : Store} (r : Request) (h : Inv s) : Inv (handle s r).store := by
  obtain ⟨hsorted, hrange, hnext⟩ := h
  cases r with
  | list => exact ⟨hsorted, hrange, hnext⟩
  | create body saveErr =>
    cases body with
    | error err => exact ⟨hsorted, hrange, hnext⟩
    | ok x =>
      simp only [handle, createCar_store, Inv, ids, List.map_append, List.map_cons,
        List.map_nil, List.pairwise_append, List.mem_append, List.mem_singleton]
      refine ⟨⟨hsorted, by simp, ?_⟩, ?_, by omega⟩
      · intro a ha b hb
        subst hb
        exact (hrange a ha).2
      · intro y hy
        rcases hy with hy | rfl
        · have := hrange y hy
          omega
        · omega
  | get atoi =>
    simp only [handle, getCarByID_store]
    exact ⟨hsorted, hrange, hnext⟩
  | update atoi body saveErr =>
    rcases updateCar_store_cases atoi body saveErr s with h1 | ⟨id, i, x, _, _, _, hi, h1⟩
    · simp only [handle, h1]
      exact ⟨hsorted, hrange, hnext⟩
    · simp only [handle, h1, Inv, ids, ids_update x hi]
      exact ⟨hsorted, hrange, hnext⟩
  | delete atoi saveErr =>
    rcases deleteCar_store_cases atoi saveErr s with h1 | ⟨id, i, _, _, hi, h1⟩
    · simp only [handle, h1]
      exact ⟨hsorted, hrange, hnext⟩
    · simp only [handle, h1, Inv, ids]
      have hsub := ids_delete hi
      exact ⟨hsorted.sublist hsub, fun y hy => hrange y (hsub.subset hy), hnext⟩
  | clear method saveErr =>
    rcases deleteAllCars_store method saveErr s with h1 | h1
    · simp only [handle, h1]
      exact ⟨hsorted, hrange, hnext⟩
    · simp [handle, h1, Inv, ids]

theorem inv_run (reqs : List Request) : ∀ s : Store, Inv s → Inv (run s reqs) := by
  induction reqs with
  | nil => intro s h; exact h
  | cons r rest ih => intro s h; exact ih _ (inv_handle r h)

theorem inv_of_reachable {s : Store} (h : Reachable s) : Inv s := by
  obtain ⟨reqs, rfl⟩ := h
  exact inv_run reqs initStore inv_initStore

/-! ## Reading a response back -/

theorem deleteCar_noContent {atoi : Option Int} {saveErr : Option String} {s : Store}
    (h : (deleteCar atoi saveErr s).resp.status = 204) :
    ∃ id i, atoi = some id ∧ 0 < id ∧ indexOfID id s.cars = some i := by
  cases atoi with
  | none => simp [deleteCar] at h
  | some id =>
    by_cases hpos : id ≤ 0
    · simp [deleteCar, hpos] at h
    · cases hi : indexOfID id s.cars with
      | none => simp [deleteCar, hpos, hi] at h
      | some i => exact ⟨id, i, rfl, by omega, hi⟩

theorem not_mem_of_nodup_split {id : Int} {pre post : List Car} {c : Car}
    (hc : c.ID = id) (hnd : ((pre ++ c :: post).map Car.ID).Nodup) :
    ∀ y ∈ post, y.ID ≠ id := by
  intro y hy hyid
  rw [List.map_append, List.map_cons, List.nodup_append] at hnd
  have hcons := hnd.2.1
  rw [List.nodup_cons] at hcons
  apply hcons.1
  rw [hc, ← hyid]
  exact List.mem_map_of_mem Car.ID hy

/-! ## The full-update test -/

theorem isFullUpdate_iff (c : Car) :
    isFullUpdate c = true ↔
      c.Brand ≠ "" ∧ c.Model ≠ "" ∧ 0 < c.Mileage ∧ 0 ≤ c.OwnersCount := by
  simp [isFullUpdate, and_assoc]

theorem isFullUpdate_setID (c : Car) (id : Int) :
    isFullUpdate { c with ID := id } = isFullUpdate c := rfl

theorem isFullUpdate_decode_omitted {j : CarJSON}
    (h : j.Brand = none ∨ j.Model = none ∨ j.Mileage = none) :
    isFullUpdate (decodeCar j) = false := by
  rw [Bool.eq_false_iff]
  intro hfull
  obtain ⟨hb, hm, hmil, _⟩ := (isFullUpdate_iff _).mp hfull
  rcases h with h | h | h
  · exact hb (by simp [decodeCar, h])
  · exact hm (by simp [decodeCar, h])
  · simp [decodeCar, h] at hmil

theorem updateCar_resp_found {id : Int} {i : Nat} (x : Car) {s : Store}
    (hid : 0 < id) (hi : indexOfID id s.cars = some i) :
    (updateCar (some id) (.ok x) none s).resp
      = if isFullUpdate x then ⟨200, .car { x with ID := id }⟩ else ⟨204, .empty⟩ := by
  have hpos : ¬ id ≤ 0 := by omega
  simp only [updateCar, hpos, hi, saveCars, if_false, isFullUpdate_setID]
  split <;> rfl

theorem updateCar_status_ok {atoi : Option Int} {body : Except String Car}
    {saveErr : Option String} {s : Store}
    (h : (updateCar atoi body saveErr s).resp.status = 200) :
    ∃ x, body = .ok x ∧ isFullUpdate x = true := by
  cases atoi with
  | none => simp [updateCar] at h
  | some id =>
    by_cases hpos : id ≤ 0
    · simp [updateCar, hpos] at h
    · cases body with
      | error err => simp [updateCar, hpos] at h
      | ok x =>
        cases hi : indexOfID id s.cars with
        | none => simp [updateCar, hpos, hi] at h
        | some i =>
          cases saveErr with
          | some err => simp [updateCar, hpos, hi, saveCars] at h
          | none =>
            rw [updateCar_resp_found x (by omega) hi] at h
            by_cases hf : isFullUpdate x = true
            · exact ⟨x, rfl, hf⟩
            · simp [hf] at h

/-! ## Saving and loading -/

theorem last_is_highest_of_sorted {cs : List Car} {last : Car}
    (hsorted : (cs.map Car.ID).Pairwise (· ≤ ·)) (hlast : cs.getLast? = some last) :
    ∀ c ∈ cs, c.ID ≤ last.ID := by
  obtain ⟨front, rfl⟩ := List.getLast?_eq_some_iff.mp hlast
  intro c hc
  rw [List.map_append, List.pairwise_append] at hsorted
  rcases List.mem_append.mp hc with hc | hc
  · exact hsorted.2.2 c.ID (List.mem_map_of_mem Car.ID hc) last.ID (by simp)
  · rw [List.mem_singleton.mp hc]

theorem loadCars_content (cs : List Car) :
    ∃ s2, loadCars (.content (.ok cs)) initStore = .ok s2 ∧ s2.cars = cs ∧
      (cs = [] → s2.nextID = 1) ∧
      (∀ last, cs.getLast? = some last → s2.nextID = last.ID + 1) := by
  cases hl : cs.getLast? with
  | none =>
    refine ⟨{ cars := cs, nextID := 1 }, by simp [loadCars, hl, initStore], rfl,
      fun _ => rfl, by simp⟩
  | some last =>
    refine ⟨{ cars := cs, nextID := last.ID + 1 }, by simp [loadCars, hl], rfl, ?_, ?_⟩
    · intro hnil
      simp [hnil] at hl
    · intro l hlq
      cases hlq
      rfl

theorem handle_written (s : Store) (r : Request) :
    ((handle s r).written = none ∧ (handle s r).store = s) ∨
      (handle s r).written = some (handle s r).store.cars := by
  cases r with
  | list => left; exact ⟨rfl, rfl⟩
  | create body saveErr =>
    cases body with
    | error err => left; exact ⟨rfl, rfl⟩
    | ok x => right; cases saveErr <;> rfl
  | get atoi =>
    left
    refine ⟨?_, getCarByID_store atoi s⟩
    simp only [handle, getCarByID]
    split
    · rfl
    · split
      · rfl
      · split <;> rfl
  | update atoi body saveErr =>
    simp only [handle, updateCar]
    split
    · left; exact ⟨rfl, rfl⟩
    · split
      · left; exact ⟨rfl, rfl⟩
      · split
        · left; exact ⟨rfl, rfl⟩
        · split
          · cases saveErr with
            | some err => right; rfl
            | none =>
              right
              simp only [saveCars]
              split <;> rfl
          · left; exact ⟨rfl, rfl⟩
  | delete atoi saveErr =>
    simp only [handle, deleteCar]
    split
    · left; exact ⟨rfl, rfl⟩
    · split
      · left; exact ⟨rfl, rfl⟩
      · split
        · right; cases saveErr <;> rfl
        · left; exact ⟨rfl, rfl⟩
  | clear method saveErr =>
    simp only [handle, deleteAllCars]
    split
    · left; exact ⟨rfl, rfl⟩
    · right; cases saveErr <;> rfl

theorem lastSaved_run (reqs : List Request) :
    ∀ (saved : Option (List Car)) (s : Store), (∀ r ∈ reqs, r.saveErr = none) →
      ((saved = none ∧ s = initStore) ∨ saved = some s.cars) →
      (lastSaved saved s reqs = none ∧ run s reqs = initStore) ∨
        lastSaved saved s reqs = some (run s reqs).cars := by
  induction reqs with
  | nil => intro saved s _ h; exact h
  | cons r rest ih =>
    intro saved s hok h
    have hr : r.saveErr = none := hok r (by simp)
    have hrest : ∀ q ∈ rest, q.saveErr = none := fun q hq => hok q (by simp [hq])
    rcases handle_written s r with ⟨hw, hs⟩ | hw
    · simp only [lastSaved, run, hw, hs]
      exact ih saved s hrest h
    · simp only [lastSaved, run, hw, hr]
      exact ih _ _ hrest (Or.inr rfl)

/-! ## When `saveCars` is called -/

theorem getCarByID_written (atoi : Option Int) (s : Store) :
    (getCarByID atoi s).written = none := by
  unfold getCarByID
  split
  · rfl
  · split
    · rfl
    · split <;> rfl

theorem saveCars_called (s : Store) (saveErr : Option String) :
    (∀ x, (createCar (.ok x) saveErr s).written ≠ none) ∧
    (∀ id x, 0 < id → (∃ c ∈ s.cars, c.ID = id) →
      (updateCar (some id) (.ok x) saveErr s).written ≠ none) ∧
    (∀ id, 0 < id → (∃ c ∈ s.cars, c.ID = id) →
      (deleteCar (some id) saveErr s).written ≠ none) ∧
    (deleteAllCars "DELETE" saveErr s).written ≠ none := by
  refine ⟨?_, ?_, ?_, ?_⟩
  · intro x
    cases saveErr <;> simp [createCar, saveCars]
  · rintro id x hpos ⟨c, hc, hid⟩
    obtain ⟨i, hi⟩ := indexOfID_isSome_of_mem hc hid
    have hnot : ¬ id ≤ 0 := by omega
    cases saveErr with
    | some err => simp [updateCar, hnot, hi, saveCars]
    | none =>
      simp only [updateCar, hnot, hi, saveCars, if_false]
      split <;> simp
  · rintro id hpos ⟨c, hc, hid⟩
    obtain ⟨i, hi⟩ := indexOfID_isSome_of_mem hc hid
    have hnot : ¬ id ≤ 0 := by omega
    cases saveErr <;> simp [deleteCar, hnot, hi, saveCars]
  · cases saveErr <;> simp [deleteAllCars, saveCars]

theorem updateCar_failed_save {atoi : Option Int} {body : Except String Car} {err : String}
    {s : Store} (hcalled : (updateCar atoi body (some err) s).written ≠ none) :
    (updateCar atoi body (some err) s).resp = ⟨500, .text err⟩ ∧
    (updateCar atoi body (some err) s).store = (updateCar atoi body none s).store ∧
    (updateCar atoi body (some err) s).written
      = some (updateCar atoi body (some err) s).store.cars := by
  cases atoi with
  | none => simp [updateCar] at hcalled
  | some id =>
    by_cases hpos : id ≤ 0
    · simp [updateCar, hpos] at hcalled
    · cases body with
      | error e => simp [updateCar, hpos] at hcalled
      | ok x =>
        cases hi : indexOfID id s.cars with
        | none => simp [updateCar, hpos, hi] at hcalled
        | some i =>
          rw [updateCar_store_found x (some err) (by omega) hi,
            updateCar_store_found x none (by omega) hi]
          simp [updateCar, hpos, hi, saveCars]

theorem deleteCar_failed_save {atoi : Option Int} {err : String} {s : Store}
    (hcalled : (deleteCar atoi (some err) s).written ≠ none) :
    (deleteCar atoi (some err) s).resp = ⟨500, .text err⟩ ∧
    (deleteCar atoi (some err) s).store = (deleteCar atoi none s).store ∧
    (deleteCar atoi (some err) s).written
      = some (deleteCar atoi (some err) s).store.cars := by
  cases atoi with
  | none => simp [deleteCar] at hcalled
  | some id =>
    by_cases hpos : id ≤ 0
    · simp [deleteCar, hpos] at hcalled
    · cases hi : indexOfID id s.cars with
      | none => simp [deleteCar, hpos, hi] at hcalled
      | some i => simp [deleteCar, hpos, hi, saveCars]

/-! ## The codec of the persisted file -/

theorem decodeCarValue_encodeCar (c : Car) : decodeCarValue (encodeCar c) = .ok c := by
  have hid : decodeInt "Идентификатор" [("Идентификатор", JSON.num c.ID),
      ("Марка", .str c.Brand), ("Модель", .str c.Model), ("Пробег", .num c.Mileage),
      ("Владельцы", .num c.OwnersCount)] = .ok c.ID := by
    simp [decodeInt, JSON.field, List.lookup]
  have hbrand : decodeString "Марка" [("Идентификатор", JSON.num c.ID),
      ("Марка", .str c.Brand), ("Модель", .str c.Model), ("Пробег", .num c.Mileage),
      ("Владельцы", .num c.OwnersCount)] = .ok c.Brand := by
    simp [decodeString, JSON.field, List.lookup]
  have hmodel : decodeString "Модель" [("Идентификатор", JSON.num c.ID),
      ("Марка", .str c.Brand), ("Модель", .str c.Model), ("Пробег", .num c.Mileage),
      ("Владельцы", .num c.OwnersCount)] = .ok c.Model := by
    simp [decodeString, JSON.field, List.lookup]
  have hmileage : decodeFloat "Пробег" [("Идентификатор", JSON.num c.ID),
      ("Марка", .str c.Brand), ("Модель", .str c.Model), ("Пробег", .num c.Mileage),
      ("Владельцы", .num c.OwnersCount)] = .ok c.Mileage := by
    simp [decodeFloat, JSON.field, List.lookup]
  have howners : decodeInt "Владельцы" [("Идентификатор", JSON.num c.ID),
      ("Марка", .str c.Brand), ("Модель", .str c.Model), ("Пробег", .num c.Mileage),
      ("Владельцы", .num c.OwnersCount)] = .ok c.OwnersCount := by
    simp [decodeInt, JSON.field, List.lookup]
  simp only [encodeCar, decodeCarValue, hid, hbrand, hmodel, hmileage, howners]
  rfl

theorem decodeItems_encode (cs : List Car) : decodeItems (cs.map encodeCar) = .ok cs := by
  induction cs with
  | nil => rfl
  | cons c rest ih =>
    simp only [List.map_cons, decodeItems, decodeCarValue_encodeCar, ih]
    rfl

theorem decodeCars_encodeCars (cs : List Car) : decodeCars (encodeCars cs) = .ok cs := by
  simp [decodeCars, encodeCars, decodeItems_encode]

/-! ## Claims -/

/-- C1: starting from the empty store (no records, allocator 1), along every
finite sequence of requests that contains no clear (creates, updates, deletes,
also reads, with any decode and save outcomes), the IDs assigned by the
successive creates are strictly increasing, hence no ID is assigned twice. -/
theorem created_ids_strictly_increasing (reqs : List Request)
    (h : ∀ r ∈ reqs, r.isClear = false) :
    (assignedIDs initStore reqs).Pairwise (· < ·) ∧ (assignedIDs initStore reqs).Nodup := by
  have hp := (assignedIDs_bounds reqs initStore h).1
  exact ⟨hp, hp.imp (fun hab => ne_of_lt hab)⟩

/-- Witness for C1: two creates with a delete of the first record in between
(the second save failing) are assigned 1 and 2. -/
theorem created_ids_strictly_increasing_witness :
    (∀ r ∈ createDeleteCreate, r.isClear = false) ∧
    assignedIDs initStore createDeleteCreate = [1, 2] ∧
    ((assignedIDs initStore createDeleteCreate).Pairwise (· < ·) ∧
     (assignedIDs initStore createDeleteCreate).Nodup) :=
  ⟨by simp [createDeleteCreate, Request.isClear], by decide,
   created_ids_strictly_increasing createDeleteCreate
     (by simp [createDeleteCreate, Request.isClear])⟩

/-- C2: in every store reachable from the empty one, for every decodable
payload `x`, when the save succeeds `createCar` responds 201 with `x` carrying
the allocator's current value as ID, and `getCarByID` for that ID on the
resulting store responds 200 with the same record. -/
theorem create_then_get (s : Store) (h : Reachable s) (x : Car) :
    (createCar (.ok x) none s).resp = ⟨201, .car { x with ID := s.nextID }⟩ ∧
    (getCarByID (some s.nextID) (createCar (.ok x) none s).store).resp
      = ⟨200, .car { x with ID := s.nextID }⟩ := by
  obtain ⟨_, hrange, hnext⟩ := inv_of_reachable h
  refine ⟨rfl, ?_⟩
  have hpos : ¬ s.nextID ≤ 0 := by omega
  have hpre : ∀ c ∈ s.cars, c.ID ≠ s.nextID := by
    intro c hc
    have := (hrange c.ID (List.mem_map_of_mem Car.ID hc)).2
    omega
  simp [getCarByID, hpos, createCar_store, findByID_append_of_not_mem hpre, findByID]

/-- Witness for C2: the store after one create and one delete. -/
theorem create_then_get_witness :
    Reachable (run initStore [.create (.ok toyota) none, .delete (some 1) none]) ∧
    (createCar (.ok honda) none
        (run initStore [.create (.ok toyota) none, .delete (some 1) none])).resp
      = ⟨201, .car { honda with ID := 2 }⟩ ∧
    (getCarByID (some 2) (createCar (.ok honda) none
        (run initStore [.create (.ok toyota) none, .delete (some 1) none])).store).resp
      = ⟨200, .car { honda with ID := 2 }⟩ :=
  ⟨⟨_, rfl⟩, create_then_get _ ⟨_, rfl⟩ honda⟩

/-- C3: for every store and every positive id carried by some record,
whatever the save outcome, `deleteCar` leaves the old collection with exactly
the first record carrying the id removed: the records before and after it stay
in place and in order, the length drops by one, the allocator is unchanged. -/
theorem delete_removes_first_match (s : Store) (id : Int) (saveErr : Option String)
    (hpos : 0 < id) (hmem : ∃ c ∈ s.cars, c.ID = id) :
    ∃ pre c post, s.cars = pre ++ c :: post ∧ c.ID = id ∧ (∀ y ∈ pre, y.ID ≠ id) ∧
      (deleteCar (some id) saveErr s).store.cars = pre ++ post ∧
      (deleteCar (some id) saveErr s).store.cars.length + 1 = s.cars.length ∧
      (deleteCar (some id) saveErr s).store.nextID = s.nextID := by
  obtain ⟨c0, hc0, hid0⟩ := hmem
  obtain ⟨i, hi⟩ := indexOfID_isSome_of_mem hc0 hid0
  obtain ⟨pre, c, post, hcs, hlen, hc, hpre⟩ := indexOfID_split hi
  refine ⟨pre, c, post, hcs, hc, hpre, ?_, ?_, ?_⟩
  · rw [deleteCar_store_found saveErr hpos hi]
    subst hlen
    simp only [hcs]
    exact take_drop_split
  · rw [deleteCar_store_found saveErr hpos hi]
    subst hlen
    simp only [hcs, take_drop_split]
    simp only [List.length_append, List.length_cons]
    omega
  · rw [deleteCar_store_found saveErr hpos hi]

/-- Witness for C3: deleting ID 1 from a store where two records carry it
removes the first of them. -/
theorem delete_removes_first_match_witness :
    (0 : Int) < 1 ∧ (∃ c ∈ dupStore.cars, c.ID = 1) ∧
    ∃ pre c post, dupStore.cars = pre ++ c :: post ∧ c.ID = 1 ∧ (∀ y ∈ pre, y.ID ≠ 1) ∧
      (deleteCar (some 1) none dupStore).store.cars = pre ++ post ∧
      (deleteCar (some 1) none dupStore).store.cars.length + 1 = dupStore.cars.length ∧
      (deleteCar (some 1) none dupStore).store.nextID = dupStore.nextID :=
  ⟨by decide, ⟨_, List.mem_cons_self _ _, rfl⟩,
   delete_removes_first_match dupStore 1 none (by decide) ⟨_, List.mem_cons_self _ _, rfl⟩⟩

/-- C4, as stated, fails: in a store where two records carry ID 1, `deleteCar`
for 1 responds 204 and the `getCarByID` for 1 that follows responds 200 with the
second of the two records. -/
theorem delete_then_get_duplicate :
    (deleteCar (some 1) none dupStore).resp = ⟨204, .empty⟩ ∧
    (getCarByID (some 1) (deleteCar (some 1) none dupStore).store).resp
      = ⟨200, .car ⟨1, "Lada", "Vesta", 10, 1⟩⟩ := by
  decide

/-- C4, amended: for every store whose record IDs are pairwise distinct and
every request for which `deleteCar` responds 204, the `getCarByID` with the
same path issued on the resulting store responds 404 "Авто не найден". -/
theorem delete_then_get_not_found (s : Store) (atoi : Option Int) (saveErr : Option String)
    (hnd : (ids s).Nodup) (h : (deleteCar atoi saveErr s).resp.status = 204) :
    (getCarByID atoi (deleteCar atoi saveErr s).store).resp
      = ⟨404, .text "Авто не найден"⟩ := by
  obtain ⟨id, i, rfl, hpos, hi⟩ := deleteCar_noContent h
  obtain ⟨pre, c, post, hcs, hlen, hc, hpre⟩ := indexOfID_split hi
  have hpost : ∀ y ∈ post, y.ID ≠ id := by
    apply not_mem_of_nodup_split hc
    simpa [ids, hcs] using hnd
  have hnone : findByID id (pre ++ post) = none := by
    rw [findByID_none]
    intro y hy
    rcases List.mem_append.mp hy with hy | hy
    · exact hpre y hy
    · exact hpost y hy
  have hnot : ¬ id ≤ 0 := by omega
  rw [deleteCar_store_found saveErr hpos hi]
  subst hlen
  simp only [hcs, take_drop_split]
  simp [getCarByID, hnot, hnone]

/-- Witness for C4 amended: deleting record 1 of a two-record store. -/
theorem delete_then_get_not_found_witness :
    (ids (run initStore [.create (.ok toyota) none, .create (.ok honda) none])).Nodup ∧
    (deleteCar (some 1) none
      (run initStore [.create (.ok toyota) none, .create (.ok honda) none])).resp.status = 204 ∧
    (getCarByID (some 1) (deleteCar (some 1) none
      (run initStore [.create (.ok toyota) none, .create (.ok honda) none])).store).resp
      = ⟨404, .text "Авто не найден"⟩ :=
  ⟨by decide, by decide, delete_then_get_not_found _ (some 1) none (by decide) (by decide)⟩

/-- C5: for every store, a DELETE on the delete-all path leaves an empty
collection and the allocator at 1 whatever the save outcome; `getCars` then
returns no records, and the next create with a decodable payload is assigned
ID 1 (its record is the only one stored, and the response carries it when the
save succeeds). -/
theorem clear_resets (s : Store) (saveErr : Option String) :
    (deleteAllCars "DELETE" saveErr s).store.cars = [] ∧
    (deleteAllCars "DELETE" saveErr s).store.nextID = 1 ∧
    (getCars (deleteAllCars "DELETE" saveErr s).store).resp = ⟨200, .cars []⟩ ∧
    ∀ (x : Car) (saveErr2 : Option String),
      assignedID (deleteAllCars "DELETE" saveErr s).store (.create (.ok x) saveErr2) = some 1 ∧
      (createCar (.ok x) saveErr2 (deleteAllCars "DELETE" saveErr s).store).store.cars
        = [{ x with ID := 1 }] ∧
      (createCar (.ok x) none (deleteAllCars "DELETE" saveErr s).store).resp
        = ⟨201, .car { x with ID := 1 }⟩ := by
  have hs : (deleteAllCars "DELETE" saveErr s).store = { cars := [], nextID := 1 } := by
    cases saveErr <;> rfl
  rw [hs]
  refine ⟨rfl, rfl, rfl, fun x saveErr2 => ⟨?_, ?_, rfl⟩⟩
  · simp [assignedID, handle, createCar_store]
  · simp [createCar_store]

/-- C6, as stated, fails: a store loaded from a file without IDs holds a record
with ID 0; an update for id 0 whose payload passes all four tests is answered
400 "Неверный ID", neither 200 with the record nor 204. -/
theorem update_nonpositive_id_rejected :
    (∃ c ∈ zeroStore.cars, c.ID = 0) ∧
    (toyota.Brand ≠ "" ∧ toyota.Model ≠ "" ∧ 0 < toyota.Mileage ∧ 0 ≤ toyota.OwnersCount) ∧
    (updateCar (some 0) (.ok toyota) none zeroStore).resp = ⟨400, .text "Неверный ID"⟩ := by
  refine ⟨⟨unnumbered, by simp [zeroStore], rfl⟩, ?_, by decide⟩
  decide

/-- C6, amended: for every store, every positive id carried by some record and
every decoded payload, when the save succeeds `updateCar` responds 200 with the
updated record as body exactly when the payload has a non-empty brand, a
non-empty model, mileage above 0 and owner count at least 0; in every other
case it responds 204 with no body. -/
theorem update_response_classification (s : Store) (id : Int) (x : Car)
    (hpos : 0 < id) (hmem : ∃ c ∈ s.cars, c.ID = id) :
    ((updateCar (some id) (.ok x) none s).resp = ⟨200, .car { x with ID := id }⟩ ↔
      (x.Brand ≠ "" ∧ x.Model ≠ "" ∧ 0 < x.Mileage ∧ 0 ≤ x.OwnersCount)) ∧
    (¬ (x.Brand ≠ "" ∧ x.Model ≠ "" ∧ 0 < x.Mileage ∧ 0 ≤ x.OwnersCount) →
      (updateCar (some id) (.ok x) none s).resp = ⟨204, .empty⟩) ∧
    findByID id (updateCar (some id) (.ok x) none s).store.cars = some { x with ID := id } := by
  obtain ⟨c0, hc0, hid0⟩ := hmem
  obtain ⟨i, hi⟩ := indexOfID_isSome_of_mem hc0 hid0
  rw [updateCar_resp_found x hpos hi, ← isFullUpdate_iff]
  refine ⟨?_, ?_, ?_⟩
  · by_cases hf : isFullUpdate x = true
    · simp [hf]
    · simp [hf]
  · intro hf
    simp [hf]
  · obtain ⟨pre, c, post, hcs, hlen, _, hpre⟩ := indexOfID_split hi
    rw [updateCar_store_found x none hpos hi]
    subst hlen
    simp only [hcs, set_split]
    rw [findByID_append_of_not_mem hpre]
    simp [findByID]

/-- Witness for C6 amended: a full payload for record 1 of a one-record store. -/
theorem update_response_classification_witness :
    (0 : Int) < 1 ∧ (∃ c ∈ (run initStore [.create (.ok honda) none]).cars, c.ID = 1) ∧
    (updateCar (some 1) (.ok toyota) none (run initStore [.create (.ok honda) none])).resp
      = ⟨200, .car { toyota with ID := 1 }⟩ :=
  ⟨by decide, ⟨_, List.mem_cons_self _ _, rfl⟩,
   ((update_response_classification (run initStore [.create (.ok honda) none]) 1 toyota
      (by decide) ⟨_, List.mem_cons_self _ _, rfl⟩).1).mpr (by decide)⟩

/-- C7, as stated, fails: a body that omits the owner count and supplies a
brand, a model and a positive mileage decodes to owner count 0, which passes
`OwnersCount >= 0`; the update of the existing record 1 responds 200 with the
record. -/
theorem update_without_owner_count_is_full :
    noOwners.OwnersCount = none ∧
    (∃ c ∈ (run initStore [.create (.ok honda) none]).cars, c.ID = 1) ∧
    (updateCar (some 1) (.ok (decodeCar noOwners)) none
        (run initStore [.create (.ok honda) none])).resp
      = ⟨200, .car ⟨1, "Toyota", "Corolla", 15000, 0⟩⟩ := by
  refine ⟨rfl, ⟨_, List.mem_cons_self _ _, rfl⟩, by decide⟩

/-- C7, amended: for every update request whose JSON body omits at least one of
brand, model, mileage (an omitted field decodes to its zero value), the
response is never 200; on a positive id carried by some record, when the save
succeeds, it is 204 with no body. -/
theorem update_omitting_field (s : Store) (atoi : Option Int) (j : CarJSON)
    (saveErr : Option String)
    (homit : j.Brand = none ∨ j.Model = none ∨ j.Mileage = none) :
    (updateCar atoi (.ok (decodeCar j)) saveErr s).resp.status ≠ 200 ∧
    ∀ id, atoi = some id → 0 < id → (∃ c ∈ s.cars, c.ID = id) → saveErr = none →
      (updateCar atoi (.ok (decodeCar j)) saveErr s).resp = ⟨204, .empty⟩ := by
  have hnotfull := isFullUpdate_decode_omitted homit
  refine ⟨fun hok => ?_, ?_⟩
  · obtain ⟨x, hx, hfull⟩ := updateCar_status_ok hok
    cases hx
    rw [hnotfull] at hfull
    exact Bool.false_ne_true hfull
  · rintro id rfl hpos ⟨c0, hc0, hid0⟩ rfl
    obtain ⟨i, hi⟩ := indexOfID_isSome_of_mem hc0 hid0
    rw [updateCar_resp_found _ hpos hi, hnotfull]
    simp

/-- Witness for C7 amended: a body that supplies only the brand, for record 1. -/
theorem update_omitting_field_witness :
    ((some "Toyota" : Option String) = none ∨ (none : Option String) = none ∨
      (none : Option Rat) = none) ∧
    (updateCar (some 1) (.ok (decodeCar ⟨none, some "Toyota", none, none, none⟩)) none
        (run initStore [.create (.ok honda) none])).resp = ⟨204, .empty⟩ :=
  ⟨Or.inr (Or.inl rfl),
   (update_omitting_field (run initStore [.create (.ok honda) none]) (some 1)
      ⟨none, some "Toyota", none, none, none⟩ none (Or.inr (Or.inl rfl))).2 1 rfl (by decide)
      ⟨_, List.mem_cons_self _ _, rfl⟩ rfl⟩

/-- C8, as stated, fails: for id 0, carried by the record of a store loaded from
a file without IDs, `updateCar` leaves the record as it was instead of replacing
it by the payload. -/
theorem update_nonpositive_id_keeps_record :
    (∃ c ∈ zeroStore.cars, c.ID = 0) ∧
    (updateCar (some 0) (.ok toyota) none zeroStore).store.cars = [unnumbered] ∧
    [unnumbered] ≠ [{ toyota with ID := 0 }] := by
  refine ⟨⟨unnumbered, by simp [zeroStore], rfl⟩, by decide, by decide⟩

/-- C8, amended: for every store, every positive id carried by some record and
every decoded payload `x`, full or partial, whatever the save outcome, the
collection after `updateCar` is the old one with the first record carrying the
id replaced by `x` with its ID set to that id; the other records, their order,
the length, the IDs and the allocator are unchanged. -/
theorem update_replaces_first_match (s : Store) (id : Int) (x : Car)
    (saveErr : Option String) (hpos : 0 < id) (hmem : ∃ c ∈ s.cars, c.ID = id) :
    ∃ pre c post, s.cars = pre ++ c :: post ∧ c.ID = id ∧ (∀ y ∈ pre, y.ID ≠ id) ∧
      (updateCar (some id) (.ok x) saveErr s).store.cars
        = pre ++ { x with ID := id } :: post ∧
      (updateCar (some id) (.ok x) saveErr s).store.cars.length = s.cars.length ∧
      ids (updateCar (some id) (.ok x) saveErr s).store = ids s ∧
      (updateCar (some id) (.ok x) saveErr s).store.nextID = s.nextID := by
  obtain ⟨c0, hc0, hid0⟩ := hmem
  obtain ⟨i, hi⟩ := indexOfID_isSome_of_mem hc0 hid0
  obtain ⟨pre, c, post, hcs, hlen, hc, hpre⟩ := indexOfID_split hi
  refine ⟨pre, c, post, hcs, hc, hpre, ?_, ?_, ?_, ?_⟩
  · rw [updateCar_store_found x saveErr hpos hi]
    subst hlen
    simp only [hcs, set_split]
  · rw [updateCar_store_found x saveErr hpos hi]
    simp
  · rw [updateCar_store_found x saveErr hpos hi]
    exact ids_update x hi
  · rw [updateCar_store_found x saveErr hpos hi]

/-- Witness for C8 amended: a partial payload for ID 1 in a store where two
records carry it replaces the first of them, the save failing. -/
theorem update_replaces_first_match_witness :
    (0 : Int) < 1 ∧ (∃ c ∈ dupStore.cars, c.ID = 1) ∧
    ∃ pre c post, dupStore.cars = pre ++ c :: post ∧ c.ID = 1 ∧ (∀ y ∈ pre, y.ID ≠ 1) ∧
      (updateCar (some 1) (.ok unnumbered) (some "disk full") dupStore).store.cars
        = pre ++ { unnumbered with ID := 1 } :: post ∧
      (updateCar (some 1) (.ok unnumbered) (some "disk full") dupStore).store.cars.length
        = dupStore.cars.length ∧
      ids (updateCar (some 1) (.ok unnumbered) (some "disk full") dupStore).store
        = ids dupStore ∧
      (updateCar (some 1) (.ok unnumbered) (some "disk full") dupStore).store.nextID
        = dupStore.nextID :=
  ⟨by decide, ⟨_, List.mem_cons_self _ _, rfl⟩,
   update_replaces_first_match dupStore 1 unnumbered (some "disk full") (by decide)
     ⟨_, List.mem_cons_self _ _, rfl⟩⟩

/-- C9, as stated, fails: for a file whose records carry IDs 5 and 2 in that
order, `loadCars` leaves the allocator at 3, not at one more than the highest
ID 5. -/
theorem load_unsorted_file :
    (∃ c ∈ unsortedFile, c.ID = 5) ∧
    ∃ s2, loadCars (.content (.ok unsortedFile)) initStore = .ok s2 ∧ s2.nextID = 3 :=
  ⟨⟨_, List.mem_cons_self _ _, rfl⟩, ⟨_, rfl, rfl⟩⟩

/-- C9, amended: for every list of records decoded from the backing file whose
last record carries the highest ID present, that ID being below the largest
`int`, `loadCars` keeps the list and leaves the allocator at one more than the
highest ID present, or at 1 if the list is empty. -/
theorem load_allocator (cs : List Car)
    (hlast : ∀ last, cs.getLast? = some last → ∀ c ∈ cs, c.ID ≤ last.ID)
    (hfit : ∀ last, cs.getLast? = some last → last.ID < maxInt) :
    ∃ s2, loadCars (.content (.ok cs)) initStore = .ok s2 ∧ s2.cars = cs ∧
      (cs = [] → s2.nextID = 1) ∧
      (cs ≠ [] → ∃ top ∈ cs, (∀ c ∈ cs, c.ID ≤ top.ID) ∧ top.ID < maxInt ∧
        s2.nextID = top.ID + 1 ∧ s2.nextID ≤ maxInt) := by
  obtain ⟨s2, hload, hcars, hnil, hnext⟩ := loadCars_content cs
  refine ⟨s2, hload, hcars, hnil, fun hne => ?_⟩
  cases hl : cs.getLast? with
  | none => exact absurd (List.getLast?_eq_none_iff.mp hl) hne
  | some last =>
    have hlt := hfit last hl
    refine ⟨last, List.mem_of_getLast?_eq_some hl, hlast last hl, hlt, hnext last hl, ?_⟩
    rw [hnext last hl]
    omega

/-- Witness for C9 amended: a file with records 1 and 4 gives allocator 5. -/
theorem load_allocator_witness :
    (∀ last, sortedFile.getLast? = some last → ∀ c ∈ sortedFile, c.ID ≤ last.ID) ∧
    (∀ last, sortedFile.getLast? = some last → last.ID < maxInt) ∧
    ∃ s2, loadCars (.content (.ok sortedFile)) initStore = .ok s2 ∧ s2.cars = sortedFile ∧
      (sortedFile = [] → s2.nextID = 1) ∧
      (sortedFile ≠ [] →
        ∃ top ∈ sortedFile, (∀ c ∈ sortedFile, c.ID ≤ top.ID) ∧ top.ID < maxInt ∧
          s2.nextID = top.ID + 1 ∧ s2.nextID ≤ maxInt) :=
  ⟨by simp [sortedFile], by simp [sortedFile, maxInt],
   load_allocator sortedFile (by simp [sortedFile]) (by simp [sortedFile, maxInt])⟩

/-- C10, as stated, fails: after two creates and a delete of the second record,
all saved, the saved collection holds record 1 only; a process restarted on it
has allocator 2, which is not above the ID 2 assigned before, and its next
create is assigned 2 again. -/
theorem restart_reuses_deleted_id :
    (∀ r ∈ createCreateDelete, r.isCreateOrDelete = true ∧ r.saveErr = none) ∧
    assignedIDs initStore createCreateDelete = [1, 2] ∧
    lastSaved none initStore createCreateDelete = some [{ toyota with ID := 1 }] ∧
    ∃ s2, restart (lastSaved none initStore createCreateDelete) = .ok s2 ∧ s2.nextID = 2 ∧
      assignedID s2 (.create (.ok honda) none) = some 2 := by
  refine ⟨by simp [createCreateDelete, Request.isCreateOrDelete, Request.saveErr],
    by decide, by decide, ⟨_, rfl, rfl, by decide⟩⟩

/-- C10, amended: after any sequence of create and delete requests from the
empty store with successful saves, a process restarted on the collection last
saved holds the same collection with an allocator strictly above the ID of
every record in it, so a create after the restart is never assigned the ID of a
stored record. -/
theorem restart_allocator_above_stored (reqs : List Request)
    (h : ∀ r ∈ reqs, r.isCreateOrDelete = true ∧ r.saveErr = none) :
    ∃ s2, restart (lastSaved none initStore reqs) = .ok s2 ∧
      s2.cars = (run initStore reqs).cars ∧
      (∀ c ∈ s2.cars, c.ID < s2.nextID) ∧
      ∀ (x : Car) (saveErr : Option String) (id : Int),
        assignedID s2 (.create (.ok x) saveErr) = some id → ∀ c ∈ s2.cars, c.ID ≠ id := by
  have hinv : Inv (run initStore reqs) := inv_run reqs initStore inv_initStore
  have key : ∃ s2, restart (lastSaved none initStore reqs) = .ok s2 ∧
      s2.cars = (run initStore reqs).cars ∧ (∀ c ∈ s2.cars, c.ID < s2.nextID) := by
    rcases lastSaved_run reqs none initStore (fun r hr => (h r hr).2) (Or.inl ⟨rfl, rfl⟩) with
      ⟨hs, hrun⟩ | hs
    · refine ⟨initStore, by simp [hs, restart, loadCars], by rw [hrun], ?_⟩
      simp [initStore]
    · obtain ⟨s2, hload, hcars, _, hnext⟩ := loadCars_content (run initStore reqs).cars
      refine ⟨s2, by simp [hs, restart, hload], hcars, ?_⟩
      rw [hcars]
      intro c hc
      cases hl : (run initStore reqs).cars.getLast? with
      | none => simp [List.getLast?_eq_none_iff.mp hl] at hc
      | some last =>
        have hle := last_is_highest_of_sorted (hinv.1.imp (fun hab => le_of_lt hab)) hl c hc
        rw [hnext last hl]
        omega
  obtain ⟨s2, hrestart, hcars, hlt⟩ := key
  refine ⟨s2, hrestart, hcars, hlt, ?_⟩
  intro x saveErr id hid c hc hcid
  have hassigned : assignedID s2 (.create (.ok x) saveErr) = some s2.nextID := by
    simp [assignedID, handle, createCar_store]
  rw [hassigned] at hid
  cases hid
  have := hlt c hc
  omega

/-- Witness for C10 amended: after two creates and a delete of the second
record, the restarted process holds record 1 and allocates from 2. -/
theorem restart_allocator_above_stored_witness :
    (∀ r ∈ createCreateDelete, r.isCreateOrDelete = true ∧ r.saveErr = none) ∧
    ∃ s2, restart (lastSaved none initStore createCreateDelete) = .ok s2 ∧
      s2.cars = (run initStore createCreateDelete).cars ∧
      (∀ c ∈ s2.cars, c.ID < s2.nextID) ∧
      ∀ (x : Car) (saveErr : Option String) (id : Int),
        assignedID s2 (.create (.ok x) saveErr) = some id → ∀ c ∈ s2.cars, c.ID ≠ id :=
  ⟨by simp [createCreateDelete, Request.isCreateOrDelete, Request.saveErr],
   restart_allocator_above_stored createCreateDelete
     (by simp [createCreateDelete, Request.isCreateOrDelete, Request.saveErr])⟩

/-- C11: for every store and every create, update, delete or clear request
whose call of `saveCars` returns an error, the response is 500 with that error,
and the collection and the allocator are exactly those the same request leaves
when the save succeeds: the mutation is applied (the collection handed to
`saveCars` is the mutated one) and is not rolled back. -/
theorem save_failure_keeps_mutation (s : Store) (r : Request) (err : String)
    (hfail : r.saveErr = some err) (hcalled : (handle s r).written ≠ none) :
    (handle s r).resp = ⟨500, .text err⟩ ∧
    (handle s r).store = (handle s (r.withSaveErr none)).store ∧
    (handle s r).written = some (handle s r).store.cars := by
  cases r with
  | list => exact absurd rfl hcalled
  | create body saveErr =>
    cases hfail
    cases body with
    | error e => exact absurd rfl hcalled
    | ok x => exact ⟨rfl, rfl, rfl⟩
  | get atoi => exact absurd (getCarByID_written atoi s) hcalled
  | update atoi body saveErr =>
    cases hfail
    exact updateCar_failed_save hcalled
  | delete atoi saveErr =>
    cases hfail
    exact deleteCar_failed_save hcalled
  | clear method saveErr =>
    cases hfail
    by_cases hm : method = "DELETE"
    · subst hm
      exact ⟨rfl, rfl, rfl⟩
    · simp [handle, deleteAllCars, hm] at hcalled

/-- Witness for C11: an update of record 1 whose save fails. -/
theorem save_failure_keeps_mutation_witness :
    (Request.update (some 1) (.ok honda) (some "disk full")).saveErr = some "disk full" ∧
    (handle scenario1.store
      (.update (some 1) (.ok honda) (some "disk full"))).written ≠ none ∧
    (handle scenario1.store (.update (some 1) (.ok honda) (some "disk full"))).resp
      = ⟨500, .text "disk full"⟩ ∧
    (handle scenario1.store (.update (some 1) (.ok honda) (some "disk full"))).store
      = (handle scenario1.store
          ((Request.update (some 1) (.ok honda) (some "disk full")).withSaveErr none)).store ∧
    (handle scenario1.store (.update (some 1) (.ok honda) (some "disk full"))).written
      = some (handle scenario1.store
          (.update (some 1) (.ok honda) (some "disk full"))).store.cars :=
  ⟨rfl, by decide,
   save_failure_keeps_mutation scenario1.store
     (.update (some 1) (.ok honda) (some "disk full")) "disk full" rfl (by decide)⟩

/-- C12: for every store and every positive id that no record carries,
`getCarByID`, `deleteCar` and `updateCar` with any decoded payload each respond
404 "Авто не найден", do not call `saveCars`, and leave the collection and the
allocator unchanged. -/
theorem unknown_id_not_found (s : Store) (id : Int) (hpos : 0 < id)
    (hnone : ∀ c ∈ s.cars, c.ID ≠ id) :
    getCarByID (some id) s = ⟨⟨404, .text "Авто не найден"⟩, s, none⟩ ∧
    (∀ saveErr, deleteCar (some id) saveErr s = ⟨⟨404, .text "Авто не найден"⟩, s, none⟩) ∧
    (∀ x saveErr,
      updateCar (some id) (.ok x) saveErr s = ⟨⟨404, .text "Авто не найден"⟩, s, none⟩) := by
  have hnot : ¬ id ≤ 0 := by omega
  have hfind : findByID id s.cars = none := findByID_none.mpr hnone
  have hidx : indexOfID id s.cars = none := indexOfID_none.mpr hnone
  refine ⟨?_, fun saveErr => ?_, fun x saveErr => ?_⟩
  · simp [getCarByID, hnot, hfind]
  · simp [deleteCar, hnot, hidx]
  · simp [updateCar, hnot, hidx]

/-- Witness for C12: id 7 in a store that holds record 1 only. -/
theorem unknown_id_not_found_witness :
    (0 : Int) < 7 ∧ (∀ c ∈ scenario1.store.cars, c.ID ≠ 7) ∧
    getCarByID (some 7) scenario1.store
      = ⟨⟨404, .text "Авто не найден"⟩, scenario1.store, none⟩ ∧
    (∀ saveErr, deleteCar (some 7) saveErr scenario1.store
      = ⟨⟨404, .text "Авто не найден"⟩, scenario1.store, none⟩) ∧
    (∀ x saveErr, updateCar (some 7) (.ok x) saveErr scenario1.store
      = ⟨⟨404, .text "Авто не найден"⟩, scenario1.store, none⟩) :=
  ⟨by decide, by decide, unknown_id_not_found scenario1.store 7 (by decide) (by decide)⟩

/-- C13: for every store and every item path whose segment `strconv.Atoi`
rejects (the empty segment among them) or parses to a value at most 0,
`getCarByID`, `updateCar` and `deleteCar` each respond 400 "Неверный ID", do not
call `saveCars`, and leave the collection and the allocator unchanged; for
`updateCar` whatever the body decodes to. -/
theorem invalid_id_bad_request (s : Store) (atoi : Option Int)
    (hbad : atoi = none ∨ ∃ id, atoi = some id ∧ id ≤ 0) :
    getCarByID atoi s = ⟨⟨400, .text "Неверный ID"⟩, s, none⟩ ∧
    (∀ body saveErr, updateCar atoi body saveErr s = ⟨⟨400, .text "Неверный ID"⟩, s, none⟩) ∧
    (∀ saveErr, deleteCar atoi saveErr s = ⟨⟨400, .text "Неверный ID"⟩, s, none⟩) := by
  rcases hbad with rfl | ⟨id, rfl, hid⟩
  · exact ⟨rfl, fun _ _ => rfl, fun _ => rfl⟩
  · refine ⟨?_, fun body saveErr => ?_, fun saveErr => ?_⟩
    · simp [getCarByID, hid]
    · simp [updateCar, hid]
    · simp [deleteCar, hid]

/-- Witness for C13: id 0, carried by the record of the store. -/
theorem invalid_id_bad_request_witness :
    ((some 0 : Option Int) = none ∨ ∃ id : Int, some 0 = some id ∧ id ≤ 0) ∧
    getCarByID (some 0) zeroStore = ⟨⟨400, .text "Неверный ID"⟩, zeroStore, none⟩ ∧
    (∀ body saveErr, updateCar (some 0) body saveErr zeroStore
      = ⟨⟨400, .text "Неверный ID"⟩, zeroStore, none⟩) ∧
    (∀ saveErr, deleteCar (some 0) saveErr zeroStore
      = ⟨⟨400, .text "Неверный ID"⟩, zeroStore, none⟩) :=
  ⟨Or.inr ⟨0, rfl, le_refl 0⟩,
   invalid_id_bad_request zeroStore (some 0) (Or.inr ⟨0, rfl, le_refl 0⟩)⟩

/-- C14: for every store, a create, or an update with a positive id, whose body
fails to decode responds 400 with the decode error message, does not call
`saveCars`, and leaves the collection and the allocator unchanged: the rejected
create is assigned no ID, and the rejected update is answered 400, not 404,
whether or not a record carries the id. -/
theorem decode_failure_bad_request (s : Store) (err : String) (saveErr : Option String)
    (id : Int) (hpos : 0 < id) :
    createCar (.error err) saveErr s = ⟨⟨400, .text err⟩, s, none⟩ ∧
    assignedID s (.create (.error err) saveErr) = none ∧
    updateCar (some id) (.error err) saveErr s = ⟨⟨400, .text err⟩, s, none⟩ := by
  have hnot : ¬ id ≤ 0 := by omega
  refine ⟨rfl, rfl, ?_⟩
  simp [updateCar, hnot]

/-- Witness for C14: an empty body on the empty store, update aimed at id 3
that no record carries. -/
theorem decode_failure_bad_request_witness :
    (0 : Int) < 3 ∧
    createCar (.error "EOF") none initStore = ⟨⟨400, .text "EOF"⟩, initStore, none⟩ ∧
    assignedID initStore (.create (.error "EOF") none) = none ∧
    updateCar (some 3) (.error "EOF") none initStore
      = ⟨⟨400, .text "EOF"⟩, initStore, none⟩ :=
  ⟨by decide, decode_failure_bad_request initStore "EOF" none 3 (by decide)⟩

/-- C15: for every store, `deleteAllCars` with a method other than DELETE, and
the item-path handler with a method other than GET, PATCH, PUT and DELETE,
respond 405, do not call `saveCars`, and leave the collection and the allocator
unchanged; on an item path PATCH and PUT with the same id, body and save
outcome give the same response and the same store. -/
theorem method_not_allowed (s : Store) (m1 m2 : String) (h1 : m1 ≠ "DELETE")
    (h2 : m2 ≠ "GET" ∧ m2 ≠ "PATCH" ∧ m2 ≠ "PUT" ∧ m2 ≠ "DELETE") :
    (∀ saveErr, deleteAllCars m1 saveErr s = ⟨⟨405, .text "Недопустимый метод"⟩, s, none⟩) ∧
    (∀ atoi body saveErr,
      itemHandler m2 atoi body saveErr s = ⟨⟨405, .text "Недопустимый метод"⟩, s, none⟩) ∧
    (∀ atoi body saveErr,
      itemHandler "PATCH" atoi body saveErr s = itemHandler "PUT" atoi body saveErr s) := by
  obtain ⟨hget, hpatch, hput, hdel⟩ := h2
  refine ⟨fun saveErr => ?_, fun atoi body saveErr => ?_, fun atoi body saveErr => ?_⟩
  · simp [deleteAllCars, h1]
  · simp [itemHandler, hget, hpatch, hput, hdel]
  · simp [itemHandler]

/-- Witness for C15: GET on the delete-all path and POST on an item path. -/
theorem method_not_allowed_witness :
    "GET" ≠ "DELETE" ∧
    ("POST" ≠ "GET" ∧ "POST" ≠ "PATCH" ∧ "POST" ≠ "PUT" ∧ "POST" ≠ "DELETE") ∧
    (∀ saveErr, deleteAllCars "GET" saveErr scenario2.store
      = ⟨⟨405, .text "Недопустимый метод"⟩, scenario2.store, none⟩) ∧
    (∀ atoi body saveErr, itemHandler "POST" atoi body saveErr scenario2.store
      = ⟨⟨405, .text "Недопустимый метод"⟩, scenario2.store, none⟩) ∧
    (∀ atoi body saveErr, itemHandler "PATCH" atoi body saveErr scenario2.store
      = itemHandler "PUT" atoi body saveErr scenario2.store) :=
  ⟨by decide, by decide,
   method_not_allowed scenario2.store "GET" "POST" (by decide) (by decide)⟩

/-- C17: from the empty store with every save succeeding, the create of the
Toyota responds 201 with ID 1, the create of the Honda is assigned ID 2,
the delete of 1 responds 204, the list then returns exactly the Honda with ID 2,
the clear responds 204, and the next create is assigned ID 1. -/
theorem scenario_run :
    scenario1.resp = ⟨201, .car { toyota with ID := 1 }⟩ ∧
    assignedID scenario1.store (.create (.ok honda) none) = some 2 ∧
    scenario2.resp = ⟨201, .car { honda with ID := 2 }⟩ ∧
    scenario3.resp = ⟨204, .empty⟩ ∧
    scenario4.resp = ⟨200, .cars [{ honda with ID := 2 }]⟩ ∧
    scenario5.resp = ⟨204, .empty⟩ ∧
    assignedID scenario5.store (.create (.ok toyota) none) = some 1 ∧
    scenario6.resp = ⟨201, .car { toyota with ID := 1 }⟩ := by
  decide

/-- C19: in every store reached from the empty one by any sequence of list,
get, create, update, delete and clear requests with any save outcomes, the
record IDs are pairwise distinct, strictly increasing along the collection, at
least 1 and strictly below the allocator. -/
theorem reachable_ids_ordered (s : Store) (h : Reachable s) :
    (ids s).Nodup ∧ (ids s).Pairwise (· < ·) ∧ ∀ x ∈ ids s, 1 ≤ x ∧ x < s.nextID := by
  obtain ⟨hsorted, hrange, _⟩ := inv_of_reachable h
  exact ⟨hsorted.imp (fun hab => ne_of_lt hab), hsorted, hrange⟩

/-- Witness for C19: the store after two creates, a failed-save update and a
delete of the first record. -/
theorem reachable_ids_ordered_witness :
    Reachable (run initStore [.create (.ok toyota) none, .create (.ok honda) none,
      .update (some 2) (.ok unnumbered) (some "disk full"), .delete (some 1) none]) ∧
    ((ids (run initStore [.create (.ok toyota) none, .create (.ok honda) none,
      .update (some 2) (.ok unnumbered) (some "disk full"), .delete (some 1) none])).Nodup ∧
     (ids (run initStore [.create (.ok toyota) none, .create (.ok honda) none,
      .update (some 2) (.ok unnumbered) (some "disk full"),
      .delete (some 1) none])).Pairwise (· < ·) ∧
     ∀ x ∈ ids (run initStore [.create (.ok toyota) none, .create (.ok honda) none,
      .update (some 2) (.ok unnumbered) (some "disk full"), .delete (some 1) none]),
       1 ≤ x ∧ x < (run initStore [.create (.ok toyota) none, .create (.ok honda) none,
      .update (some 2) (.ok unnumbered) (some "disk full"), .delete (some 1) none]).nextID) :=
  ⟨⟨_, rfl⟩, reachable_ids_ordered _ ⟨_, rfl⟩⟩

/-- C16: for every store, `saveCars` hands the whole collection to the
encoder, the encoded file decodes to that collection, and `loadCars` run by a
fresh process on the file written by a successful save holds a collection equal
to the original, record for record and in the same order. -/
theorem save_load_round_trip (s : Store) :
    (saveCars none s).2 = s.cars ∧
    decodeCars (encodeCars s.cars) = .ok s.cars ∧
    ∃ s2, loadCars (savedFile s) initStore = .ok s2 ∧ s2.cars = s.cars := by
  refine ⟨rfl, decodeCars_encodeCars s.cars, ?_⟩
  obtain ⟨s2, hload, hcars, _, _⟩ := loadCars_content s.cars
  refine ⟨s2, ?_, hcars⟩
  simp only [savedFile, saveCars, decodeCars_encodeCars]
  exact hload

end Cars
